import Mathlib

set_option maxHeartbeats 1000000

/-!
Shallow embedding of the version-history and diff engine of the NotrailNote
note-taking application: the line differ of the diff screen, the snapshot
retention eviction of the database layer, the GitHub sync reconciler, and the
durable sync queue.  External services (the GitHub HTTP client of
`github.ts` and the SQLite/AsyncStorage persistence) are modelled as oracle
environments; a thrown JavaScript exception is modelled as `Except.error`.
-/

namespace NotrailNote

/-- Discriminator of a diff record, matching the `type` field of `DiffLine`. -/
inductive DiffType where
  | added
  | removed
  | unchanged
deriving DecidableEq

/-- One record of the edit script produced by `computeDiff`: `lineNumber` is
the 1-based position on the new side (null for removed lines),
`oldLineNumber` the 1-based position on the old side (null for added lines). -/
structure DiffLine where
  type : DiffType
  content : String
  lineNumber : Option Nat
  oldLineNumber : Option Nat
deriving DecidableEq

/-- JavaScript `Array.prototype.indexOf` on string arrays: 0-based index of
the first occurrence, or -1 when the element does not occur. -/
def jsIndexOf : List String → String → Int
  | [], _ => -1
  | y :: ys, x =>
      if y = x then 0
      else if jsIndexOf ys x = -1 then -1 else jsIndexOf ys x + 1

/-- Index of the first occurrence of `x`, as an option: the specification-side
counterpart of `jsIndexOf`. -/
def firstIdxOf (x : String) : List String → Option Nat
  | [] => none
  | y :: ys => if y = x then some 0 else (firstIdxOf x ys).map (· + 1)

/-- Accumulator loop for `splitLines`: `acc` holds the characters of the
current line in reverse. -/
def splitLinesAux (acc : List Char) : List Char → List String
  | [] => [String.mk acc.reverse]
  | c :: cs =>
      if c = '\n' then String.mk acc.reverse :: splitLinesAux [] cs
      else splitLinesAux (c :: acc) cs

/-- JavaScript `text.split('\n')`: the result always has at least one
element, and a trailing newline yields a trailing empty-string entry. -/
def splitLines (s : String) : List String :=
  splitLinesAux [] s.data

/-- The two-cursor loop of `computeDiff`, expressed over the unconsumed
suffixes of the two line arrays.  `oldIdx` and `newIdx` are the absolute
0-based cursor positions (used only for the emitted 1-based line numbers) and
`fuel` bounds the number of iterations; every iteration consumes at least one
line, so `oldLines.length + newLines.length` is always sufficient fuel. -/
def computeDiffGo : Nat → List String → List String → Nat → Nat → List DiffLine
  | 0, _, _, _, _ => []
  | _ + 1, [], [], _, _ => []
  | fuel + 1, [], newLine :: newRest, oldIdx, newIdx =>
      ⟨DiffType.added, newLine, some (newIdx + 1), none⟩ ::
        computeDiffGo fuel [] newRest oldIdx (newIdx + 1)
  | fuel + 1, oldLine :: oldRest, [], oldIdx, newIdx =>
      ⟨DiffType.removed, oldLine, none, some (oldIdx + 1)⟩ ::
        computeDiffGo fuel oldRest [] (oldIdx + 1) newIdx
  | fuel + 1, oldLine :: oldRest, newLine :: newRest, oldIdx, newIdx =>
      if oldLine = newLine then
        ⟨DiffType.unchanged, newLine, some (newIdx + 1), some (oldIdx + 1)⟩ ::
          computeDiffGo fuel oldRest newRest (oldIdx + 1) (newIdx + 1)
      else
        -- foundInNew is jsIndexOf newRest oldLine, foundInOld is jsIndexOf oldRest newLine
        if jsIndexOf newRest oldLine ≠ -1 ∧
            (jsIndexOf oldRest newLine = -1 ∨
              jsIndexOf newRest oldLine ≤ jsIndexOf oldRest newLine) then
          ⟨DiffType.added, newLine, some (newIdx + 1), none⟩ ::
            computeDiffGo fuel (oldLine :: oldRest) newRest oldIdx (newIdx + 1)
        else if jsIndexOf oldRest newLine ≠ -1 then
          ⟨DiffType.removed, oldLine, none, some (oldIdx + 1)⟩ ::
            computeDiffGo fuel oldRest (newLine :: newRest) (oldIdx + 1) newIdx
        else
          ⟨DiffType.removed, oldLine, none, some (oldIdx + 1)⟩ ::
            ⟨DiffType.added, newLine, some (newIdx + 1), none⟩ ::
              computeDiffGo fuel oldRest newRest (oldIdx + 1) (newIdx + 1)

/-- The greedy line differ `computeDiff(oldText, newText)` of the diff
screen: split both texts on newlines and walk both arrays with two cursors,
searching forward on a mismatch to classify the line as added or removed, and
falling back to a remove-then-add substitution. -/
def computeDiff (oldText newText : String) : List DiffLine :=
  let oldLines := splitLines oldText
  let newLines := splitLines newText
  computeDiffGo (oldLines.length + newLines.length) oldLines newLines 0 0

/-- Pair each line with its 1-based line number, counting from `k`. -/
def withNumbersFrom (k : Nat) : List String → List (String × Option Nat)
  | [] => []
  | l :: ls => (l, some k) :: withNumbersFrom (k + 1) ls

/-- Lines emitted as `added` records with consecutive new-side numbers
starting at `k`: the shape of the output once the old side is exhausted. -/
def addedFrom (k : Nat) : List String → List DiffLine
  | [] => []
  | l :: ls => ⟨DiffType.added, l, some k, none⟩ :: addedFrom (k + 1) ls

/-- Records that carry an old-side line (type removed or unchanged). -/
def DiffLine.onOldSide (r : DiffLine) : Bool :=
  match r.type with
  | DiffType.added => false
  | _ => true

/-- Records that carry a new-side line (type added or unchanged). -/
def DiffLine.onNewSide (r : DiffLine) : Bool :=
  match r.type with
  | DiffType.removed => false
  | _ => true

/-- Records of type added. -/
def DiffLine.isAdded (r : DiffLine) : Bool :=
  match r.type with
  | DiffType.added => true
  | _ => false

theorem computeDiffGo_oldSide :
    ∀ (fuel : Nat) (olds news : List String) (oldIdx newIdx : Nat),
      olds.length + news.length ≤ fuel →
      ((computeDiffGo fuel olds news oldIdx newIdx).filter DiffLine.onOldSide).map
          (fun r => (r.content, r.oldLineNumber)) =
        withNumbersFrom (oldIdx + 1) olds := by
  intro fuel
  induction fuel with
  | zero =>
      intro olds news oldIdx newIdx h
      cases olds with
      | nil => simp [computeDiffGo, withNumbersFrom]
      | cons o os => simp at h
  | succ fuel ih =>
      intro olds news oldIdx newIdx h
      cases olds with
      | nil =>
          cases news with
          | nil => simp [computeDiffGo, withNumbersFrom]
          | cons n ns =>
              have hrec := ih [] ns oldIdx (newIdx + 1) (by simp at h ⊢; omega)
              simpa [computeDiffGo, DiffLine.onOldSide, withNumbersFrom] using hrec
      | cons o os =>
          cases news with
          | nil =>
              have hrec := ih os [] (oldIdx + 1) newIdx (by simp at h ⊢; omega)
              simpa [computeDiffGo, DiffLine.onOldSide, withNumbersFrom] using hrec
          | cons n ns =>
              have hlen : os.length + ns.length ≤ fuel := by simp at h; omega
              by_cases heq : o = n
              · subst heq
                have hrec := ih os ns (oldIdx + 1) (newIdx + 1) hlen
                simpa [computeDiffGo, DiffLine.onOldSide, withNumbersFrom] using hrec
              · simp only [computeDiffGo]
                rw [if_neg heq]
                split
                · have hrec := ih (o :: os) ns oldIdx (newIdx + 1) (by simp at h ⊢; omega)
                  simpa [DiffLine.onOldSide, withNumbersFrom] using hrec
                · split
                  · have hrec := ih os (n :: ns) (oldIdx + 1) newIdx (by simp at h ⊢; omega)
                    simpa [DiffLine.onOldSide, withNumbersFrom] using hrec
                  · have hrec := ih os ns (oldIdx + 1) (newIdx + 1) hlen
                    simpa [DiffLine.onOldSide, withNumbersFrom] using hrec

theorem computeDiffGo_newSide :
    ∀ (fuel : Nat) (olds news : List String) (oldIdx newIdx : Nat),
      olds.length + news.length ≤ fuel →
      ((computeDiffGo fuel olds news oldIdx newIdx).filter DiffLine.onNewSide).map
          (fun r => (r.content, r.lineNumber)) =
        withNumbersFrom (newIdx + 1) news := by
  intro fuel
  induction fuel with
  | zero =>
      intro olds news oldIdx newIdx h
      cases news with
      | nil => simp [computeDiffGo, withNumbersFrom]
      | cons n ns => simp at h
  | succ fuel ih =>
      intro olds news oldIdx newIdx h
      cases olds with
      | nil =>
          cases news with
          | nil => simp [computeDiffGo, withNumbersFrom]
          | cons n ns =>
              have hrec := ih [] ns oldIdx (newIdx + 1) (by simp at h ⊢; omega)
              simpa [computeDiffGo, DiffLine.onNewSide, withNumbersFrom] using hrec
      | cons o os =>
          cases news with
          | nil =>
              have hrec := ih os [] (oldIdx + 1) newIdx (by simp at h ⊢; omega)
              simpa [computeDiffGo, DiffLine.onNewSide, withNumbersFrom] using hrec
          | cons n ns =>
              have hlen : os.length + ns.length ≤ fuel := by simp at h; omega
              by_cases heq : o = n
              · subst heq
                have hrec := ih os ns (oldIdx + 1) (newIdx + 1) hlen
                simpa [computeDiffGo, DiffLine.onNewSide, withNumbersFrom] using hrec
              · simp only [computeDiffGo]
                rw [if_neg heq]
                split
                · have hrec := ih (o :: os) ns oldIdx (newIdx + 1) (by simp at h ⊢; omega)
                  simpa [DiffLine.onNewSide, withNumbersFrom] using hrec
                · split
                  · have hrec := ih os (n :: ns) (oldIdx + 1) newIdx (by simp at h ⊢; omega)
                    simpa [DiffLine.onNewSide, withNumbersFrom] using hrec
                  · have hrec := ih os ns (oldIdx + 1) (newIdx + 1) hlen
                    simpa [DiffLine.onNewSide, withNumbersFrom] using hrec

/-- C2: the line differ, on the literal inputs of spec section 8 property 1,
produces exactly the expected records: three unchanged lines numbered 1,2,3 on
both sides for identical texts; unchanged(a), added(x), unchanged(b) for an
insertion; unchanged(a), removed(b), unchanged(c) for a deletion. -/
theorem computeDiff_literal_inputs :
    computeDiff ("a\nb\nc") ("a\nb\nc") =
      [⟨DiffType.unchanged, "a", some 1, some 1⟩,
       ⟨DiffType.unchanged, "b", some 2, some 2⟩,
       ⟨DiffType.unchanged, "c", some 3, some 3⟩] ∧
    computeDiff ("a\nb") ("a\nx\nb") =
      [⟨DiffType.unchanged, "a", some 1, some 1⟩,
       ⟨DiffType.added, "x", some 2, none⟩,
       ⟨DiffType.unchanged, "b", some 3, some 2⟩] ∧
    computeDiff ("a\nb\nc") ("a\nc") =
      [⟨DiffType.unchanged, "a", some 1, some 1⟩,
       ⟨DiffType.removed, "b", none, some 2⟩,
       ⟨DiffType.unchanged, "c", some 2, some 3⟩] := by
  refine ⟨?_, ?_, ?_⟩ <;> decide

/-- C10: the subsequence of removed-or-unchanged records lists exactly the
lines of the old text in order with oldLineNumber running 1..n, and the
subsequence of added-or-unchanged records lists exactly the lines of the new
text in order with lineNumber running 1..m, so the edit script reconstructs
both inputs. -/
theorem computeDiff_reconstructs_both_sides (oldText newText : String) :
    ((computeDiff oldText newText).filter DiffLine.onOldSide).map
        (fun r => (r.content, r.oldLineNumber)) =
      withNumbersFrom 1 (splitLines oldText) ∧
    ((computeDiff oldText newText).filter DiffLine.onNewSide).map
        (fun r => (r.content, r.lineNumber)) =
      withNumbersFrom 1 (splitLines newText) := by
  constructor
  · exact computeDiffGo_oldSide _ _ _ 0 0 le_rfl
  · exact computeDiffGo_newSide _ _ _ 0 0 le_rfl

theorem firstIdxOf_none_jsIndexOf (x : String) :
    ∀ xs : List String, firstIdxOf x xs = none → jsIndexOf xs x = -1 := by
  intro xs
  induction xs with
  | nil => intro _; rfl
  | cons y ys ih =>
      intro h
      by_cases hy : y = x
      · simp [firstIdxOf, hy] at h
      · simp [firstIdxOf, hy] at h
        simp [jsIndexOf, hy, ih h]

theorem firstIdxOf_some_jsIndexOf (x : String) :
    ∀ (xs : List String) (j : Nat), firstIdxOf x xs = some j → jsIndexOf xs x = (j : Int) := by
  intro xs
  induction xs with
  | nil => intro j h; simp [firstIdxOf] at h
  | cons y ys ih =>
      intro j h
      by_cases hy : y = x
      · simp [firstIdxOf, hy] at h
        simp [jsIndexOf, hy, ← h]
      · simp [firstIdxOf, hy] at h
        obtain ⟨a, ha, rfl⟩ := h
        have hja := ih a ha
        have hnn : ¬ jsIndexOf ys x = -1 := by rw [hja]; omega
        rw [jsIndexOf]
        rw [if_neg hy, if_neg hnn, hja]
        push_cast
        ring

theorem computeDiffGo_oldExhausted :
    ∀ (fuel : Nat) (news : List String) (oldIdx newIdx : Nat),
      news.length ≤ fuel →
      computeDiffGo fuel [] news oldIdx newIdx = addedFrom (newIdx + 1) news := by
  intro fuel
  induction fuel with
  | zero =>
      intro news oldIdx newIdx h
      cases news with
      | nil => simp [computeDiffGo, addedFrom]
      | cons n ns => simp at h
  | succ fuel ih =>
      intro news oldIdx newIdx h
      cases news with
      | nil => simp [computeDiffGo, addedFrom]
      | cons n ns =>
          simp only [computeDiffGo, addedFrom]
          rw [ih ns oldIdx (newIdx + 1) (by simp at h; omega)]

theorem computeDiffGo_emptyOld :
    ∀ (news : List String) (fuel newIdx : Nat),
      news.length + 1 ≤ fuel →
      computeDiffGo fuel [""] news 0 newIdx =
        match firstIdxOf ("") news with
        | some k =>
            addedFrom (newIdx + 1) (news.take k) ++
              ⟨DiffType.unchanged, "", some (newIdx + k + 1), some 1⟩ ::
                addedFrom (newIdx + k + 2) (news.drop (k + 1))
        | none => ⟨DiffType.removed, "", none, some 1⟩ :: addedFrom (newIdx + 1) news := by
  intro news
  induction news with
  | nil =>
      intro fuel newIdx h
      obtain ⟨f, rfl⟩ : ∃ f, fuel = f + 1 := ⟨fuel - 1, by omega⟩
      cases f <;> simp [computeDiffGo, firstIdxOf, addedFrom]
  | cons n ns ih =>
      intro fuel newIdx h
      obtain ⟨f, rfl⟩ : ∃ f, fuel = f + 1 := ⟨fuel - 1, by omega⟩
      by_cases hn : n = ""
      · subst hn
        have hrest := computeDiffGo_oldExhausted f ns 1 (newIdx + 1) (by simp at h; omega)
        simp only [computeDiffGo, if_pos rfl, hrest, firstIdxOf]
        simp [addedFrom]
      · have hne : ¬ ("" = n) := fun hh => hn hh.symm
        cases hfind : firstIdxOf ("") ns with
        | some j =>
            have hj := firstIdxOf_some_jsIndexOf ("") ns j hfind
            have hcond : jsIndexOf ns ("") ≠ -1 ∧
                (jsIndexOf [] n = -1 ∨ jsIndexOf ns ("") ≤ jsIndexOf [] n) := by
              constructor
              · rw [hj]; omega
              · exact Or.inl rfl
            have hrec := ih f (newIdx + 1) (by simp at h; omega)
            rw [hfind] at hrec
            simp only [computeDiffGo]
            rw [if_neg hne, if_pos hcond, hrec]
            simp [firstIdxOf, hn, hfind, addedFrom, Nat.add_assoc, Nat.add_comm,
              Nat.add_left_comm]
        | none =>
            have hj := firstIdxOf_none_jsIndexOf ("") ns hfind
            have hcond : ¬ (jsIndexOf ns ("") ≠ -1 ∧
                (jsIndexOf [] n = -1 ∨ jsIndexOf ns ("") ≤ jsIndexOf [] n)) := by
              rw [hj]; simp
            have hcond2 : ¬ (jsIndexOf [] n ≠ -1) := by simp [jsIndexOf]
            have hrest := computeDiffGo_oldExhausted f ns 1 (newIdx + 1) (by simp at h; omega)
            simp only [computeDiffGo]
            rw [if_neg hne, if_neg hcond, if_neg hcond2, hrest]
            simp [firstIdxOf, hn, hfind, addedFrom]

/-- C9 (amended): when the old text is empty (so its split is the single
empty line), every line of the new text is emitted as an added record with
its 1-based line number, with one exception forced by the greedy alignment:
the first empty-string line of the new text (if any) is emitted as unchanged,
paired with the old side's single empty line; when the new text has no empty
line, a removed record for the old empty line precedes the added records. -/
theorem computeDiff_emptyOldText (newText : String) :
    computeDiff ("") newText =
      match firstIdxOf ("") (splitLines newText) with
      | some k =>
          addedFrom 1 ((splitLines newText).take k) ++
            ⟨DiffType.unchanged, "", some (k + 1), some 1⟩ ::
              addedFrom (k + 2) ((splitLines newText).drop (k + 1))
      | none =>
          ⟨DiffType.removed, "", none, some 1⟩ :: addedFrom 1 (splitLines newText) := by
  have h1 : splitLines ("") = [""] := rfl
  have h := computeDiffGo_emptyOld (splitLines newText)
    (1 + (splitLines newText).length) 0 (by omega)
  simp only [computeDiff, h1, List.length_cons, List.length_nil, Nat.zero_add]
  simpa using h

/-- C9 counterexample: for newText equal to the empty string, the single new
line (the empty string) is emitted as an unchanged record, not as an added
record, so the claim that every line of the new text is emitted as added
fails at this input. -/
theorem computeDiff_emptyOld_cx :
    computeDiff ("") ("") = [⟨DiffType.unchanged, "", some 1, some 1⟩] ∧
    (computeDiff ("") ("")).filter DiffLine.isAdded = [] ∧
    splitLines ("") = [""] := by
  refine ⟨?_, ?_, ?_⟩ <;> decide

/-- Provenance of a snapshot, the `source` column of the versions table:
written as `'local'` or `'github'` in the schema. -/
inductive VersionSource where
  | localSource
  | github
deriving DecidableEq

/-- A row of the `versions` table (a Snapshot): full-text content, creation
timestamp in milliseconds, provenance, optional label, the automatic-save
flag, and the optional remote commit metadata. -/
structure Version where
  id : String
  documentId : String
  content : String
  createdAt : Int
  source : VersionSource
  label : Option String
  autoSaved : Bool
  commitSha : Option String
  commitMessage : Option String
  author : Option String
deriving DecidableEq

/-- Retention eviction `deleteOldVersions(retentionDays)` over the versions
table: a no-op returning 0 when retentionDays is -1, otherwise it deletes
every row with `created_at < now - retentionDays*24*60*60*1000` and
`auto_saved = 1`, returning the number of deleted rows.  The first component
is the surviving table, the second the deleted count. -/
def deleteOldVersions (table : List Version) (retentionDays : Int) (now : Int) :
    List Version × Nat :=
  if retentionDays = -1 then (table, 0)
  else
    (table.filter
        (fun v => !(decide (v.createdAt < now - retentionDays * (24 * 60 * 60 * 1000)) &&
          v.autoSaved)),
      table.length -
        (table.filter
          (fun v => !(decide (v.createdAt < now - retentionDays * (24 * 60 * 60 * 1000)) &&
            v.autoSaved))).length)

/-- C1 (amended): eviction never deletes a snapshot whose autoSaved flag is
false, for any retentionDays and any age; the deletion predicate tests only
the creation timestamp and the auto-saved flag, so this is the full
exemption the code grants. -/
theorem deleteOldVersions_exempts_manual (table : List Version) (retentionDays now : Int)
    (v : Version) (hmem : v ∈ table) (hman : v.autoSaved = false) :
    v ∈ (deleteOldVersions table retentionDays now).1 := by
  unfold deleteOldVersions
  split
  · exact hmem
  · exact List.mem_filter.2 ⟨hmem, by simp [hman]⟩

/-- A remote-sourced but automatically saved snapshot, old enough to fall
past the retention cutoff. -/
def remoteAutoVersion : Version :=
  ⟨"v1", "d1", "content", 0, VersionSource.github, none, true, some "sha1", none, none⟩

/-- A manual (autoSaved = false) snapshot of the same age, used as the
witness input. -/
def manualOldVersion : Version :=
  ⟨"v2", "d1", "content", 0, VersionSource.github, some "milestone", false, none, none, none⟩

/-- C1 counterexample: a snapshot with source github (remote) and
autoSaved = true that is older than the cutoff is deleted by
deleteOldVersions, so the claimed exemption for remote-sourced snapshots
fails: with retentionDays 1 and now one millisecond past the one-day cutoff,
the table is emptied and the deleted count is 1. -/
theorem deleteOldVersions_remote_cx :
    remoteAutoVersion.source = VersionSource.github ∧
    remoteAutoVersion.autoSaved = true ∧
    deleteOldVersions [remoteAutoVersion] 1 86400001 = ([], 1) := by
  refine ⟨rfl, rfl, ?_⟩
  decide

/-- C1 witness: the amended exemption theorem applied to a concrete manual
snapshot older than the cutoff, which survives eviction. -/
theorem deleteOldVersions_exempts_manual_witness :
    manualOldVersion ∈ (deleteOldVersions [manualOldVersion] 1 86400001).1 :=
  deleteOldVersions_exempts_manual [manualOldVersion] 1 86400001 manualOldVersion
    (List.Mem.head _) rfl

/-- Action of a sync queue entry. -/
inductive QueueAction where
  | push
  | pull
deriving DecidableEq

/-- A SyncQueueItem of the durable sync queue. -/
structure SyncQueueItem where
  id : String
  documentId : String
  action : QueueAction
  createdAt : Int
  retryCount : Nat
  lastError : Option String
deriving DecidableEq

/-- The duplicate test of the enqueue operation: an existing entry matches
when both its documentId and its action coincide with the requested pair. -/
def matchesPair (documentId : String) (action : QueueAction) (item : SyncQueueItem) : Bool :=
  decide (item.documentId = documentId ∧ item.action = action)

/-- The enqueue operation `addToSyncQueue(documentId, action)`: a no-op when
an entry with the same documentId and action already exists, otherwise it
appends a fresh entry with retryCount 0.  The generated id and the current
time are passed explicitly. -/
def addToSyncQueue (queue : List SyncQueueItem) (documentId : String)
    (action : QueueAction) (newId : String) (now : Int) : List SyncQueueItem :=
  match queue.find? (matchesPair documentId action) with
  | some _ => queue
  | none => queue ++ [⟨newId, documentId, action, now, 0, none⟩]

/-- Number of queue entries for a given (documentId, action) pair. -/
def pairCount (queue : List SyncQueueItem) (documentId : String) (action : QueueAction) : Nat :=
  (queue.filter (matchesPair documentId action)).length

/-- C6: enqueueing a (documentId, action) pair that is already queued is a
no-op, so enqueueing the same pair twice leaves the queue of the first
enqueue unchanged; after one enqueue the pair has max(previous, 1) entries
(exactly one when it was absent); and enqueueing preserves the invariant
that every (documentId, action) pair has at most one entry. -/
theorem addToSyncQueue_dedup (queue : List SyncQueueItem) (documentId : String)
    (action : QueueAction) (id1 : String) (t1 : Int) (id2 : String) (t2 : Int) :
    addToSyncQueue (addToSyncQueue queue documentId action id1 t1) documentId action id2 t2 =
      addToSyncQueue queue documentId action id1 t1 ∧
    pairCount (addToSyncQueue queue documentId action id1 t1) documentId action =
      max (pairCount queue documentId action) 1 ∧
    (∀ d a, pairCount queue d a ≤ 1 →
      pairCount (addToSyncQueue queue documentId action id1 t1) d a ≤ 1) := by
  cases hfind : queue.find? (matchesPair documentId action) with
  | some it =>
      have hq1 : addToSyncQueue queue documentId action id1 t1 = queue := by
        unfold addToSyncQueue
        rw [hfind]
      have hone : 1 ≤ pairCount queue documentId action := by
        have hmem : it ∈ queue.filter (matchesPair documentId action) :=
          List.mem_filter.2 ⟨List.mem_of_find?_eq_some hfind, List.find?_some hfind⟩
        have := List.length_pos.2 (List.ne_nil_of_mem hmem)
        simpa [pairCount] using this
      refine ⟨?_, ?_, ?_⟩
      · rw [hq1]; unfold addToSyncQueue; rw [hfind]
      · rw [hq1]; exact (Nat.max_eq_left hone).symm
      · intro d a ha; rw [hq1]; exact ha
  | none =>
      have hempty : queue.filter (matchesPair documentId action) = [] :=
        List.filter_eq_nil.2 (List.find?_eq_none.1 hfind)
      have h0 : pairCount queue documentId action = 0 := by simp [pairCount, hempty]
      have hnewMatches : matchesPair documentId action
          (⟨id1, documentId, action, t1, 0, none⟩ : SyncQueueItem) = true := by
        simp [matchesPair]
      have hq1 : addToSyncQueue queue documentId action id1 t1 =
          queue ++ [⟨id1, documentId, action, t1, 0, none⟩] := by
        unfold addToSyncQueue
        rw [hfind]
      have hcount : pairCount (queue ++ [⟨id1, documentId, action, t1, 0, none⟩])
          documentId action = 1 := by
        simp [pairCount, List.filter_append, hempty, List.filter, hnewMatches]
      refine ⟨?_, ?_, ?_⟩
      · rw [hq1]
        have hfind2 : (queue ++ [(⟨id1, documentId, action, t1, 0, none⟩ : SyncQueueItem)]).find?
            (matchesPair documentId action) =
            some ⟨id1, documentId, action, t1, 0, none⟩ := by
          rw [List.find?_append, hfind]
          simp [List.find?, hnewMatches]
        unfold addToSyncQueue
        rw [hfind2]
      · rw [hq1, hcount, h0]
        omega
      · intro d a ha
        rw [hq1]
        by_cases hda : documentId = d ∧ action = a
        · obtain ⟨hd, ha2⟩ := hda
          subst hd
          subst ha2
          rw [hcount]
        · have hnew : ([(⟨id1, documentId, action, t1, 0, none⟩ : SyncQueueItem)].filter
              (matchesPair d a)) = [] := by
            have : matchesPair d a (⟨id1, documentId, action, t1, 0, none⟩ : SyncQueueItem) =
                false := by
              simp only [matchesPair, decide_eq_false_iff_not]
              exact hda
            simp [List.filter, this]
          simp only [pairCount, List.filter_append, List.length_append, hnew,
            List.length_nil]
          simpa [pairCount] using ha

/-- C6 witness: the dedup theorem applied to the empty queue: after one
enqueue of (doc1, push) the pair has at most one entry. -/
theorem addToSyncQueue_dedup_witness :
    pairCount (addToSyncQueue [] ("doc1") QueueAction.push ("i1") 0) ("doc1")
      QueueAction.push ≤ 1 :=
  (addToSyncQueue_dedup [] ("doc1") QueueAction.push ("i1") 0 ("i2") 1).2.2 ("doc1")
    QueueAction.push (by decide)

/-- Sync status stored in a document's sync descriptor. -/
inductive SyncStatus where
  | synced
  | pending
  | error
deriving DecidableEq

/-- The per-document sync descriptor (the `githubSync` field). -/
structure GitHubSyncInfo where
  enabled : Bool
  repoPath : String
  branch : String
  lastCommitSha : Option String
  syncStatus : SyncStatus
deriving DecidableEq

/-- A Document of the document repository. -/
structure Document where
  id : String
  title : String
  content : String
  createdAt : Int
  updatedAt : Int
  tags : Option (List String)
  githubSync : Option GitHubSyncInfo
deriving DecidableEq

/-- Discriminator of a sync result. -/
inductive SyncAction where
  | pushed
  | pulled
  | conflict
  | no_change
  | error
deriving DecidableEq

/-- The SyncResult value returned by every reconciler operation. -/
structure SyncResult where
  success : Bool
  action : SyncAction
  message : String
  commitSha : Option String
deriving DecidableEq

/-- A remote file as returned by the GitHub contents API: blob revision id,
base64 content, encoding. -/
structure GitHubFile where
  sha : String
  content : String
  encoding : String
deriving DecidableEq

/-- Result of a remote file write: new blob sha and new commit sha. -/
structure PutFileResult where
  sha : String
  commitSha : String
deriving DecidableEq

/-- A partial document update as passed to `updateDocument(id, updates)`. -/
structure DocumentUpdates where
  title : Option String
  content : Option String
  tags : Option (List String)
  githubSync : Option GitHubSyncInfo
deriving DecidableEq

/-- An observable local-database write performed by the reconciler. -/
inductive DbEffect where
  | updateDocument (id : String) (updates : DocumentUpdates)
  | createVersion (version : Version)
deriving DecidableEq

/-- Whether an effect records a new snapshot (a `createVersion` call). -/
def DbEffect.isCreateVersion : DbEffect → Bool
  | DbEffect.createVersion _ => true
  | _ => false

/-- Oracle environment for the reconciler: the external GitHub file service
and the local database.  Arguments follow the source signatures
(accessToken, owner, repo, path, branch for reads; plus content, message and
optional prior sha for writes).  An `Except.error` models a thrown
exception; `Except.ok none` models a null return (file or document absent,
or a failed write reported as null). -/
structure SyncEnv where
  getFileContent : String → String → String → String → String →
    Except String (Option GitHubFile)
  createOrUpdateFile : String → String → String → String → String → String →
    Option String → String → Except String (Option PutFileResult)
  decodeContent : String → String
  getDocumentById : String → Except String (Option Document)
  updateDocument : String → DocumentUpdates → Except String Unit

/-- Characters replaced by underscore when sanitizing a title into a path. -/
def isInvalidPathChar (c : Char) : Bool :=
  c == '<' || c == '>' || c == ':' || c == '\"' || c == '/' || c == '\\' ||
    c == '|' || c == '?' || c == '*'

/-- Collapse every maximal run of whitespace into a single underscore; the
flag records whether the previous character was whitespace. -/
def collapseWsAux : List Char → Bool → List Char
  | [], _ => []
  | c :: cs, prevWs =>
      if c.isWhitespace then
        if prevWs then collapseWsAux cs true else '_' :: collapseWsAux cs true
      else c :: collapseWsAux cs false

/-- The deterministic remote path of a document: sanitize the title
(illegal path characters to underscore, whitespace runs to underscore),
truncate to 100 characters and wrap as documents/NAME.md. -/
def getDocumentPath (title : String) : String :=
  "documents/" ++
    String.mk
      ((collapseWsAux (title.data.map (fun c => if isInvalidPathChar c then '_' else c))
        false).take 100) ++ ".md"

/-- JavaScript `trim()`: strip whitespace from both ends. -/
def jsTrim (s : String) : String :=
  String.mk (((s.data.dropWhile Char.isWhitespace).reverse.dropWhile Char.isWhitespace).reverse)

/-- JavaScript `startsWith`. -/
def jsStartsWith (s pre : String) : Bool :=
  pre.data.isPrefixOf s.data

/-- JavaScript `slice(n)` on a string (drop the first n characters). -/
def jsDropChars (n : Nat) (s : String) : String :=
  String.mk (s.data.drop n)

/-- JavaScript `Array.prototype.join('\n')`. -/
def joinLines : List String → String
  | [] => ""
  | [l] => l
  | l :: ls => l ++ "\n" ++ joinLines ls

/-- The serialized form pushed to the remote: a markdown title heading
followed by a blank line and the body. -/
def localContentOf (doc : Document) : String :=
  "# " ++ doc.title ++ "\n\n" ++ doc.content

/-- The result value produced by the catch-all handler of each reconciler
operation. -/
def errorResult (e : String) : SyncResult × List DbEffect :=
  (⟨false, SyncAction.error, e, none⟩, [])

/-- The sync-descriptor update written after a successful push. -/
def descriptorUpdate (owner repo path branch sha : String) : DocumentUpdates :=
  ⟨none, none, none,
    some ⟨true, owner ++ "/" ++ repo ++ "/" ++ path, branch, some sha, SyncStatus.synced⟩⟩

/-- The commit message of a push: Update when the remote file already
exists, Create otherwise. -/
def pushMessage (doc : Document) (existingFile : Option GitHubFile) : String :=
  match existingFile with
  | some _ => "Update: " ++ doc.title
  | none => "Create: " ++ doc.title

/-- The body of `pushDocument` (the try block): read the existing remote
file, write title heading plus body (passing the prior revision when
updating), and on success update the sync descriptor. -/
def pushDocumentAux (env : SyncEnv) (doc : Document)
    (accessToken owner repo branch : String) :
    Except String (SyncResult × List DbEffect) :=
  match env.getFileContent accessToken owner repo (getDocumentPath doc.title) branch with
  | Except.error e => Except.error e
  | Except.ok existingFile =>
      match env.createOrUpdateFile accessToken owner repo (getDocumentPath doc.title)
          (localContentOf doc) (pushMessage doc existingFile)
          (existingFile.map GitHubFile.sha) branch with
      | Except.error e => Except.error e
      | Except.ok none =>
          Except.ok (⟨false, SyncAction.error, "GitHubへのアップロードに失敗しました", none⟩, [])
      | Except.ok (some result) =>
          match env.updateDocument doc.id
              (descriptorUpdate owner repo (getDocumentPath doc.title) branch
                result.commitSha) with
          | Except.error e => Except.error e
          | Except.ok _ =>
              Except.ok
                (⟨true, SyncAction.pushed, "同期完了", some result.commitSha⟩,
                  [DbEffect.updateDocument doc.id
                    (descriptorUpdate owner repo (getDocumentPath doc.title) branch
                      result.commitSha)])

/-- The reconciler push operation, with its catch-all error handler. -/
def pushDocument (env : SyncEnv) (doc : Document)
    (accessToken owner repo branch : String) : SyncResult × List DbEffect :=
  match pushDocumentAux env doc accessToken owner repo branch with
  | Except.ok r => r
  | Except.error e => errorResult e

/-- Title/body split of pulled markdown content: when the first line starts
with the heading marker, the title is the rest of that line trimmed and the
body is the lines from the third onwards joined and trimmed; otherwise the
title is empty and the body is the whole content. -/
def parsePulled (content : String) : String × String :=
  match splitLines content with
  | [] => ("", content)
  | l0 :: _ =>
      if jsStartsWith l0 ("# ") then
        (jsTrim (jsDropChars 2 l0), jsTrim (joinLines ((splitLines content).drop 2)))
      else ("", content)

/-- The document update written by a pull: replace title (keeping the local
one when the pulled title is empty) and content, and record the descriptor
with the pulled revision. -/
def pullUpdates (owner repo path branch : String) (file : GitHubFile)
    (decoded : String) (doc : Document) : DocumentUpdates :=
  ⟨some (if (parsePulled decoded).1 = "" then doc.title else (parsePulled decoded).1),
    some (parsePulled decoded).2, none,
    some ⟨true, owner ++ "/" ++ repo ++ "/" ++ path, branch, some file.sha,
      SyncStatus.synced⟩⟩

/-- The body of `pullDocument` (the try block). -/
def pullDocumentAux (env : SyncEnv)
    (documentId accessToken owner repo path branch : String) :
    Except String (SyncResult × List DbEffect) :=
  match env.getFileContent accessToken owner repo path branch with
  | Except.error e => Except.error e
  | Except.ok none =>
      Except.ok (⟨false, SyncAction.error, "ファイルが見つかりません", none⟩, [])
  | Except.ok (some file) =>
      match env.getDocumentById documentId with
      | Except.error e => Except.error e
      | Except.ok none =>
          Except.ok (⟨false, SyncAction.error, "ローカルドキュメントが見つかりません", none⟩, [])
      | Except.ok (some doc) =>
          match env.updateDocument documentId
              (pullUpdates owner repo path branch file (env.decodeContent file.content)
                doc) with
          | Except.error e => Except.error e
          | Except.ok _ =>
              Except.ok
                (⟨true, SyncAction.pulled, "GitHubから取得しました", some file.sha⟩,
                  [DbEffect.updateDocument documentId
                    (pullUpdates owner repo path branch file
                      (env.decodeContent file.content) doc)])

/-- The reconciler pull operation, with its catch-all error handler. -/
def pullDocument (env : SyncEnv)
    (documentId accessToken owner repo path branch : String) :
    SyncResult × List DbEffect :=
  match pullDocumentAux env documentId accessToken owner repo path branch with
  | Except.ok r => r
  | Except.error e => errorResult e

/-- The body of `syncDocument` (the try block): fetch the remote file; push
when it is absent; report no change when the trimmed decoded remote equals
the trimmed local serialization; otherwise push (both when only local
diverged and in the diverged-both-sides conflict case, which prefers
local). -/
def syncDocumentAux (env : SyncEnv) (doc : Document)
    (accessToken owner repo branch : String) :
    Except String (SyncResult × List DbEffect) :=
  match env.getFileContent accessToken owner repo (getDocumentPath doc.title) branch with
  | Except.error e => Except.error e
  | Except.ok none => Except.ok (pushDocument env doc accessToken owner repo branch)
  | Except.ok (some remoteFile) =>
      if jsTrim (env.decodeContent remoteFile.content) = jsTrim (localContentOf doc) then
        Except.ok (⟨true, SyncAction.no_change, "変更はありません", some remoteFile.sha⟩, [])
      else if (doc.githubSync.bind GitHubSyncInfo.lastCommitSha) = some remoteFile.sha then
        Except.ok (pushDocument env doc accessToken owner repo branch)
      else
        Except.ok (pushDocument env doc accessToken owner repo branch)

/-- The smart-sync entry point, with its catch-all error handler. -/
def syncDocument (env : SyncEnv) (doc : Document)
    (accessToken owner repo branch : String) : SyncResult × List DbEffect :=
  match syncDocumentAux env doc accessToken owner repo branch with
  | Except.ok r => r
  | Except.error e => errorResult e

theorem pushDocumentAux_ok_shape (env : SyncEnv) (doc : Document)
    (accessToken owner repo branch : String) (res : SyncResult × List DbEffect)
    (h : pushDocumentAux env doc accessToken owner repo branch = Except.ok res) :
    res.1.success = true ↔ res.1.action ≠ SyncAction.error := by
  unfold pushDocumentAux at h
  repeat' split at h
  all_goals
    first
      | (injection h with h
         subst h
         simp)
      | simp_all

theorem pushDocument_success_iff (env : SyncEnv) (doc : Document)
    (accessToken owner repo branch : String) :
    (pushDocument env doc accessToken owner repo branch).1.success = true ↔
      (pushDocument env doc accessToken owner repo branch).1.action ≠ SyncAction.error := by
  cases hx : pushDocumentAux env doc accessToken owner repo branch with
  | error e => simp [pushDocument, hx, errorResult]
  | ok res =>
      have hshape := pushDocumentAux_ok_shape env doc accessToken owner repo branch res hx
      simpa [pushDocument, hx] using hshape

theorem pullDocumentAux_ok_shape (env : SyncEnv)
    (documentId accessToken owner repo path branch : String)
    (res : SyncResult × List DbEffect)
    (h : pullDocumentAux env documentId accessToken owner repo path branch =
      Except.ok res) :
    res.1.success = true ↔ res.1.action ≠ SyncAction.error := by
  unfold pullDocumentAux at h
  repeat' split at h
  all_goals
    first
      | (injection h with h
         subst h
         simp)
      | simp_all

theorem pullDocument_success_iff (env : SyncEnv)
    (documentId accessToken owner repo path branch : String) :
    (pullDocument env documentId accessToken owner repo path branch).1.success = true ↔
      (pullDocument env documentId accessToken owner repo path branch).1.action ≠
        SyncAction.error := by
  cases hx : pullDocumentAux env documentId accessToken owner repo path branch with
  | error e => simp [pullDocument, hx, errorResult]
  | ok res =>
      have hshape := pullDocumentAux_ok_shape env documentId accessToken owner repo path
        branch res hx
      simpa [pullDocument, hx] using hshape

theorem syncDocumentAux_ok_shape (env : SyncEnv) (doc : Document)
    (accessToken owner repo branch : String) (res : SyncResult × List DbEffect)
    (h : syncDocumentAux env doc accessToken owner repo branch = Except.ok res) :
    res.1.success = true ↔ res.1.action ≠ SyncAction.error := by
  unfold syncDocumentAux at h
  repeat' split at h
  all_goals
    first
      | (injection h with h
         subst h
         exact pushDocument_success_iff env doc accessToken owner repo branch)
      | (injection h with h
         subst h
         simp)
      | simp_all

theorem syncDocument_success_iff (env : SyncEnv) (doc : Document)
    (accessToken owner repo branch : String) :
    (syncDocument env doc accessToken owner repo branch).1.success = true ↔
      (syncDocument env doc accessToken owner repo branch).1.action ≠ SyncAction.error := by
  cases hx : syncDocumentAux env doc accessToken owner repo branch with
  | error e => simp [syncDocument, hx, errorResult]
  | ok res =>
      have hshape := syncDocumentAux_ok_shape env doc accessToken owner repo branch res hx
      simpa [syncDocument, hx] using hshape

/-- C5: the reconciler operations never throw: whenever the try-block body
raises (any remote-I/O or database failure modelled as an exception), the
operation returns the caught error result instead of propagating it, and in
every returned result the success flag is false exactly when the action is
the error action, so all failure paths are represented in the result
value. -/
theorem syncReconciler_never_throws (env : SyncEnv) (doc : Document)
    (documentId accessToken owner repo path branch : String) :
    ((pushDocument env doc accessToken owner repo branch).1.success = true ↔
      (pushDocument env doc accessToken owner repo branch).1.action ≠ SyncAction.error) ∧
    ((pullDocument env documentId accessToken owner repo path branch).1.success = true ↔
      (pullDocument env documentId accessToken owner repo path branch).1.action ≠
        SyncAction.error) ∧
    ((syncDocument env doc accessToken owner repo branch).1.success = true ↔
      (syncDocument env doc accessToken owner repo branch).1.action ≠ SyncAction.error) ∧
    (∀ e, pushDocumentAux env doc accessToken owner repo branch = Except.error e →
      pushDocument env doc accessToken owner repo branch = errorResult e) ∧
    (∀ e, pullDocumentAux env documentId accessToken owner repo path branch =
        Except.error e →
      pullDocument env documentId accessToken owner repo path branch = errorResult e) ∧
    (∀ e, syncDocumentAux env doc accessToken owner repo branch = Except.error e →
      syncDocument env doc accessToken owner repo branch = errorResult e) := by
  refine ⟨pushDocument_success_iff env doc accessToken owner repo branch,
    pullDocument_success_iff env documentId accessToken owner repo path branch,
    syncDocument_success_iff env doc accessToken owner repo branch, ?_, ?_, ?_⟩
  · intro e h
    unfold pushDocument
    rw [h]
  · intro e h
    unfold pullDocument
    rw [h]
  · intro e h
    unfold syncDocument
    rw [h]

/-- A benign environment for witnesses: the remote file is absent, writes
succeed with a fixed commit, the database accepts updates. -/
def envWitness : SyncEnv :=
  ⟨fun _ _ _ _ _ => Except.ok none,
   fun _ _ _ _ _ _ _ _ => Except.ok (some ⟨"blob1", "commit1"⟩),
   fun s => s,
   fun _ => Except.ok none,
   fun _ _ => Except.ok ()⟩

/-- A concrete document for witnesses. -/
def docWitness : Document := ⟨"d1", "T", "body", 0, 0, none, none⟩

/-- C5 witness: the failure-semantics theorem at a concrete environment and
document. -/
theorem syncReconciler_never_throws_witness :
    (pushDocument envWitness docWitness ("t") ("o") ("r") ("main")).1.success = true ↔
      (pushDocument envWitness docWitness ("t") ("o") ("r") ("main")).1.action ≠
        SyncAction.error :=
  (syncReconciler_never_throws envWitness docWitness ("d1") ("t") ("o") ("r") ("p")
    ("main")).1

/-- C3 (amended): the smart-sync decision procedure, as implemented: when the
remote file does not exist, syncDocument delegates to push; when it exists
and the decoded remote content equals the local serialization after trimming
surrounding whitespace on both sides, it returns the no-change result and
performs no database writes (in particular it creates no snapshot); in every
other case (remote unchanged since last sync or both sides diverged) it
delegates to push. -/
theorem syncDocument_decision_procedure (env : SyncEnv) (doc : Document)
    (accessToken owner repo branch : String) :
    (env.getFileContent accessToken owner repo (getDocumentPath doc.title) branch =
        Except.ok none →
      syncDocument env doc accessToken owner repo branch =
        pushDocument env doc accessToken owner repo branch) ∧
    (∀ f, env.getFileContent accessToken owner repo (getDocumentPath doc.title) branch =
        Except.ok (some f) →
      (jsTrim (env.decodeContent f.content) = jsTrim (localContentOf doc) →
        syncDocument env doc accessToken owner repo branch =
          (⟨true, SyncAction.no_change, "変更はありません", some f.sha⟩, [])) ∧
      (jsTrim (env.decodeContent f.content) ≠ jsTrim (localContentOf doc) →
        syncDocument env doc accessToken owner repo branch =
          pushDocument env doc accessToken owner repo branch)) := by
  constructor
  · intro h
    unfold syncDocument syncDocumentAux
    rw [h]
  · intro f h
    constructor
    · intro heq
      unfold syncDocument syncDocumentAux
      rw [h]
      dsimp only
      rw [if_pos heq]
    · intro hne
      unfold syncDocument syncDocumentAux
      rw [h]
      dsimp only
      rw [if_neg hne]
      by_cases hd : (doc.githubSync.bind GitHubSyncInfo.lastCommitSha) = some f.sha
      · rw [if_pos hd]
      · rw [if_neg hd]

/-- The smart-sync decision procedure exactly as the specification words its
step 3.  Modelled from the spec: the no-change test compares the decoded
remote content and the local serialization for plain textual equality, with
no trimming; used only to compare against the implementation. -/
def syncDocumentSpecTextual (env : SyncEnv) (doc : Document)
    (accessToken owner repo branch : String) : SyncResult × List DbEffect :=
  match env.getFileContent accessToken owner repo (getDocumentPath doc.title) branch with
  | Except.error e => errorResult e
  | Except.ok none => pushDocument env doc accessToken owner repo branch
  | Except.ok (some remoteFile) =>
      if env.decodeContent remoteFile.content = localContentOf doc then
        (⟨true, SyncAction.no_change, "変更はありません", some remoteFile.sha⟩, [])
      else pushDocument env doc accessToken owner repo branch

/-- Environment of the C3 counterexample: the remote copy carries a trailing
newline, so it differs textually from the local serialization but agrees
after trimming. -/
def envTrimCx : SyncEnv :=
  ⟨fun _ _ _ _ _ => Except.ok (some ⟨"r2", "# T\n\nb\n", "base64"⟩),
   fun _ _ _ _ _ _ _ _ => Except.ok (some ⟨"blob2", "r3"⟩),
   fun s => s,
   fun _ => Except.ok none,
   fun _ _ => Except.ok ()⟩

/-- Document of the C3 counterexample: last known remote revision r1 differs
from the fetched revision r2, so under the claimed procedure both sides have
diverged and a push would be required. -/
def docTrimCx : Document :=
  ⟨"d1", "T", "b", 0, 0, none,
    some ⟨true, "o/r/documents/T.md", "main", some "r1", SyncStatus.synced⟩⟩

/-- C3 counterexample: a remote content that differs textually from the
local content only by a trailing newline.  The claimed procedure (textual
equality) pushes, but the implementation compares trimmed contents and
returns no_change, so the claim as stated does not hold. -/
theorem syncDocument_textual_equality_cx :
    (syncDocument envTrimCx docTrimCx ("t") ("o") ("r") ("main")).1.action =
      SyncAction.no_change ∧
    (syncDocumentSpecTextual envTrimCx docTrimCx ("t") ("o") ("r") ("main")).1.action =
      SyncAction.pushed ∧
    envTrimCx.decodeContent ("# T\n\nb\n") ≠ localContentOf docTrimCx := by
  refine ⟨?_, ?_, ?_⟩ <;> decide

/-- C3 witness: the amended decision procedure applied at the concrete
counterexample environment, in its trimmed-equality branch. -/
theorem syncDocument_decision_procedure_witness :
    syncDocument envTrimCx docTrimCx ("t") ("o") ("r") ("main") =
      (⟨true, SyncAction.no_change, "変更はありません", some "r2"⟩, []) :=
  ((syncDocument_decision_procedure envTrimCx docTrimCx ("t") ("o") ("r") ("main")).2
    ⟨"r2", "# T\n\nb\n", "base64"⟩ rfl).1 (by decide)

/-- C4 (amended): when a push succeeds (the remote write returns a commit
and the descriptor write succeeds), pushDocument returns the pushed result
carrying the new commit revision and its only database effect is the
descriptor update enabled/synced/lastCommitSha-new-revision: no snapshot
(createVersion) is recorded by the reconciler. -/
theorem pushDocument_descriptor (env : SyncEnv) (doc : Document)
    (accessToken owner repo branch : String) (existingFile : Option GitHubFile)
    (pr : PutFileResult)
    (hget : env.getFileContent accessToken owner repo (getDocumentPath doc.title) branch =
      Except.ok existingFile)
    (hput : env.createOrUpdateFile accessToken owner repo (getDocumentPath doc.title)
        (localContentOf doc) (pushMessage doc existingFile)
        (existingFile.map GitHubFile.sha) branch = Except.ok (some pr))
    (hupd : env.updateDocument doc.id
        (descriptorUpdate owner repo (getDocumentPath doc.title) branch pr.commitSha) =
      Except.ok ()) :
    pushDocument env doc accessToken owner repo branch =
      (⟨true, SyncAction.pushed, "同期完了", some pr.commitSha⟩,
        [DbEffect.updateDocument doc.id
          (descriptorUpdate owner repo (getDocumentPath doc.title) branch
            pr.commitSha)]) := by
  unfold pushDocument pushDocumentAux
  rw [hget]
  dsimp only
  rw [hput]
  dsimp only
  rw [hupd]

/-- C4 counterexample: a concrete successful push whose effect trace is the
descriptor update alone: the action is pushed, the result is successful, and
no createVersion effect appears, so the claim that a successful push records
a new local Snapshot fails. -/
theorem pushDocument_no_snapshot_cx :
    (pushDocument envWitness docWitness ("t") ("o") ("r") ("main")).1.success = true ∧
    (pushDocument envWitness docWitness ("t") ("o") ("r") ("main")).1.action =
      SyncAction.pushed ∧
    ((pushDocument envWitness docWitness ("t") ("o") ("r") ("main")).2.filter
      DbEffect.isCreateVersion) = [] ∧
    (pushDocument envWitness docWitness ("t") ("o") ("r") ("main")).2 =
      [DbEffect.updateDocument ("d1")
        (descriptorUpdate ("o") ("r") (getDocumentPath ("T")) ("main") ("commit1"))] := by
  refine ⟨?_, ?_, ?_, ?_⟩ <;> decide

/-- C4 witness: the amended push theorem at the concrete witness
environment. -/
theorem pushDocument_descriptor_witness :
    pushDocument envWitness docWitness ("t") ("o") ("r") ("main") =
      (⟨true, SyncAction.pushed, "同期完了", some "commit1"⟩,
        [DbEffect.updateDocument ("d1")
          (descriptorUpdate ("o") ("r") (getDocumentPath ("T")) ("main") ("commit1"))]) :=
  pushDocument_descriptor envWitness docWitness ("t") ("o") ("r") ("main") none
    ⟨"blob1", "commit1"⟩ rfl rfl rfl

/-- Remove the queue entry with the given id from the stored queue. -/
def removeFromQueue (queue : List SyncQueueItem) (id : String) : List SyncQueueItem :=
  queue.filter (fun item => decide (item.id ≠ id))

/-- Record a failed attempt: increment the retry counter of the entry with
the given id and store the error message. -/
def incrementRetry (queue : List SyncQueueItem) (id : String) (message : String) :
    List SyncQueueItem :=
  queue.map (fun q =>
    if q.id = id then ⟨q.id, q.documentId, q.action, q.createdAt, q.retryCount + 1,
      some message⟩
    else q)

/-- The body of `processQueueItem` (the try block): load the target
document; when it no longer exists remove the entry and report success; for
a push entry run the smart sync, removing the entry on success and recording
the failure otherwise; a pull entry reports success without touching the
stored queue. -/
def processQueueItemAux (env : SyncEnv) (accessToken owner repo : String)
    (state : List SyncQueueItem) (item : SyncQueueItem) :
    Except String (Bool × List SyncQueueItem) :=
  match env.getDocumentById item.documentId with
  | Except.error e => Except.error e
  | Except.ok none => Except.ok (true, removeFromQueue state item.id)
  | Except.ok (some doc) =>
      match item.action with
      | QueueAction.push =>
          if (syncDocument env doc accessToken owner repo ("main")).1.success then
            Except.ok (true, removeFromQueue state item.id)
          else
            Except.ok (false, incrementRetry state item.id
              (syncDocument env doc accessToken owner repo ("main")).1.message)
      | QueueAction.pull => Except.ok (true, state)

/-- `processQueueItem`, with its catch handler: a thrown error also counts
the attempt as failed and records the message on the entry. -/
def processQueueItem (env : SyncEnv) (accessToken owner repo : String)
    (state : List SyncQueueItem) (item : SyncQueueItem) : Bool × List SyncQueueItem :=
  match processQueueItemAux env accessToken owner repo state item with
  | Except.ok r => r
  | Except.error e => (false, incrementRetry state item.id e)

/-- Observable outcome of one full queue-processing run: the success and
failed counters, the final stored queue, the trace of progress-callback
invocations, and the ids of the entries actually handed to
processQueueItem. -/
structure QueueRunResult where
  success : Nat
  failed : Nat
  finalState : List SyncQueueItem
  progress : List (Nat × Nat)
  attempts : List String
deriving DecidableEq

/-- Accumulate a skipped entry: only the failed counter moves; the progress
callback does not fire and the entry is not attempted. -/
def skipOutcome (r : QueueRunResult) : QueueRunResult :=
  ⟨r.success, r.failed + 1, r.finalState, r.progress, r.attempts⟩

/-- Accumulate a processed entry: one counter moves according to the
outcome, the progress callback fires with (index+1, total), and the attempt
is recorded. -/
def stepOutcome (ok : Bool) (i total : Nat) (id : String) (r : QueueRunResult) :
    QueueRunResult :=
  if ok then ⟨r.success + 1, r.failed, r.finalState, (i + 1, total) :: r.progress,
    id :: r.attempts⟩
  else ⟨r.success, r.failed + 1, r.finalState, (i + 1, total) :: r.progress,
    id :: r.attempts⟩

/-- The loop of `processSyncQueue` over the queue snapshot loaded at entry:
`snap` is the unprocessed suffix of the snapshot, `i` the absolute index of
its head, `state` the stored queue.  Entries whose retry counter has reached
maxRetries are counted as failed and skipped before the progress callback
fires (the loop continues directly). -/
def processSyncQueueGo (env : SyncEnv) (accessToken owner repo : String)
    (maxRetries total : Nat) :
    List SyncQueueItem → Nat → List SyncQueueItem → QueueRunResult
  | [], _, state => ⟨0, 0, state, [], []⟩
  | item :: rest, i, state =>
      if maxRetries ≤ item.retryCount then
        skipOutcome
          (processSyncQueueGo env accessToken owner repo maxRetries total rest (i + 1) state)
      else
        stepOutcome (processQueueItem env accessToken owner repo state item).1 i total
          item.id
          (processSyncQueueGo env accessToken owner repo maxRetries total rest (i + 1)
            (processQueueItem env accessToken owner repo state item).2)

/-- `processSyncQueue(accessToken, owner, repo, {maxRetries})`: load the
queue snapshot and process it sequentially. -/
def processSyncQueue (env : SyncEnv) (accessToken owner repo : String)
    (state : List SyncQueueItem) (maxRetries : Nat) : QueueRunResult :=
  processSyncQueueGo env accessToken owner repo maxRetries state.length state 0 state

theorem mem_removeFromQueue (queue : List SyncQueueItem) (id : String)
    (x : SyncQueueItem) (hx : x ∈ queue) (hne : x.id ≠ id) :
    x ∈ removeFromQueue queue id :=
  List.mem_filter.2 ⟨hx, by simp [hne]⟩

theorem mem_incrementRetry (queue : List SyncQueueItem) (id message : String)
    (x : SyncQueueItem) (hx : x ∈ queue) (hne : x.id ≠ id) :
    x ∈ incrementRetry queue id message := by
  unfold incrementRetry
  refine List.mem_map.2 ⟨x, hx, ?_⟩
  rw [if_neg hne]

theorem mem_processQueueItem (env : SyncEnv) (accessToken owner repo : String)
    (state : List SyncQueueItem) (item x : SyncQueueItem)
    (hx : x ∈ state) (hne : x.id ≠ item.id) :
    x ∈ (processQueueItem env accessToken owner repo state item).2 := by
  cases hg : env.getDocumentById item.documentId with
  | error e =>
      simp only [processQueueItem, processQueueItemAux, hg]
      exact mem_incrementRetry state item.id e x hx hne
  | ok odoc =>
      cases odoc with
      | none =>
          simp only [processQueueItem, processQueueItemAux, hg]
          exact mem_removeFromQueue state item.id x hx hne
      | some doc =>
          cases hact : item.action with
          | push =>
              by_cases hs :
                  (syncDocument env doc accessToken owner repo ("main")).1.success = true
              · simp only [processQueueItem, processQueueItemAux, hg, hact, if_pos hs]
                exact mem_removeFromQueue state item.id x hx hne
              · simp only [processQueueItem, processQueueItemAux, hg, hact, if_neg hs]
                exact mem_incrementRetry state item.id _ x hx hne
          | pull =>
              simp only [processQueueItem, processQueueItemAux, hg, hact]
              exact hx

theorem stepOutcome_finalState (ok : Bool) (i total : Nat) (id : String)
    (r : QueueRunResult) : (stepOutcome ok i total id r).finalState = r.finalState := by
  cases ok <;> simp [stepOutcome]

theorem stepOutcome_attempts (ok : Bool) (i total : Nat) (id : String)
    (r : QueueRunResult) : (stepOutcome ok i total id r).attempts = id :: r.attempts := by
  cases ok <;> simp [stepOutcome]

theorem stepOutcome_failed (ok : Bool) (i total : Nat) (id : String)
    (r : QueueRunResult) : r.failed ≤ (stepOutcome ok i total id r).failed := by
  cases ok <;> simp [stepOutcome]

theorem stepOutcome_progress (ok : Bool) (i total : Nat) (id : String)
    (r : QueueRunResult) :
    (stepOutcome ok i total id r).progress = (i + 1, total) :: r.progress := by
  cases ok <;> simp [stepOutcome]

theorem processSyncQueueGo_ceiling (env : SyncEnv) (accessToken owner repo : String)
    (maxRetries total : Nat) :
    ∀ (snap : List SyncQueueItem) (i : Nat) (state : List SyncQueueItem)
      (item : SyncQueueItem),
      item ∈ state → maxRetries ≤ item.retryCount →
      (∀ a ∈ snap, a.id = item.id → maxRetries ≤ a.retryCount) →
      item ∈ (processSyncQueueGo env accessToken owner repo maxRetries total snap i
        state).finalState ∧
      item.id ∉ (processSyncQueueGo env accessToken owner repo maxRetries total snap i
        state).attempts ∧
      (snap.filter (fun it => decide (maxRetries ≤ it.retryCount))).length ≤
        (processSyncQueueGo env accessToken owner repo maxRetries total snap i
          state).failed := by
  intro snap
  induction snap with
  | nil =>
      intro i state item hmem hceil hsnap
      refine ⟨hmem, ?_, ?_⟩ <;> simp [processSyncQueueGo]
  | cons a rest ih =>
      intro i state item hmem hceil hsnap
      by_cases ha : maxRetries ≤ a.retryCount
      · have hrec := ih (i + 1) state item hmem hceil
          (fun b hb => hsnap b (List.mem_cons_of_mem a hb))
        simp only [processSyncQueueGo, if_pos ha, skipOutcome]
        refine ⟨hrec.1, hrec.2.1, ?_⟩
        have hlen : ((a :: rest).filter
            (fun it => decide (maxRetries ≤ it.retryCount))).length =
            (rest.filter (fun it => decide (maxRetries ≤ it.retryCount))).length + 1 := by
          simp [List.filter_cons, ha]
        rw [hlen]
        have h3 := hrec.2.2
        omega
      · have hane : a.id ≠ item.id := fun hidq => ha (hsnap a (List.mem_cons_self a rest) hidq)
        have hpres : item ∈ (processQueueItem env accessToken owner repo state a).2 :=
          mem_processQueueItem env accessToken owner repo state a item hmem (Ne.symm hane)
        have hrec := ih (i + 1) ((processQueueItem env accessToken owner repo state a).2)
          item hpres hceil (fun b hb => hsnap b (List.mem_cons_of_mem a hb))
        have hlen : ((a :: rest).filter
            (fun it => decide (maxRetries ≤ it.retryCount))).length =
            (rest.filter (fun it => decide (maxRetries ≤ it.retryCount))).length := by
          simp [List.filter_cons, ha]
        simp only [processSyncQueueGo, if_neg ha]
        refine ⟨?_, ?_, ?_⟩
        · rw [stepOutcome_finalState]
          exact hrec.1
        · rw [stepOutcome_attempts]
          simp only [List.mem_cons, not_or]
          exact ⟨Ne.symm hane, hrec.2.1⟩
        · rw [hlen]
          exact le_trans hrec.2.2 (stepOutcome_failed _ _ _ _ _)

/-- C7: an entry whose retry counter has reached maxRetries is skipped by
queue processing: it is never handed to processQueueItem (its id does not
appear among the attempted entries, given that no other queued entry below
the ceiling shares its id), it stays in the stored queue, and every entry at
the ceiling contributes to the failed total. -/
theorem processSyncQueue_retry_ceiling (env : SyncEnv)
    (accessToken owner repo : String) (state : List SyncQueueItem) (maxRetries : Nat)
    (item : SyncQueueItem) (hmem : item ∈ state)
    (hceil : maxRetries ≤ item.retryCount)
    (hid : ∀ other ∈ state, other.id = item.id → maxRetries ≤ other.retryCount) :
    item ∈ (processSyncQueue env accessToken owner repo state maxRetries).finalState ∧
    item.id ∉ (processSyncQueue env accessToken owner repo state maxRetries).attempts ∧
    (state.filter (fun it => decide (maxRetries ≤ it.retryCount))).length ≤
      (processSyncQueue env accessToken owner repo state maxRetries).failed :=
  processSyncQueueGo_ceiling env accessToken owner repo maxRetries state.length state 0
    state item hmem hceil hid

/-- A queue entry whose retry counter (5) is past the default ceiling (3). -/
def ceilItem : SyncQueueItem := ⟨"q1", "d1", QueueAction.push, 0, 5, none⟩

/-- C7 witness: the retry-ceiling theorem at a concrete one-entry queue: the
exhausted entry survives processing, is never attempted, and is counted
failed. -/
theorem processSyncQueue_retry_ceiling_witness :
    ceilItem ∈ (processSyncQueue envWitness ("t") ("o") ("r") [ceilItem] 3).finalState :=
  (processSyncQueue_retry_ceiling envWitness ("t") ("o") ("r") [ceilItem] 3 ceilItem
    (List.Mem.head _) (by decide) (by decide)).1

/-- The progress-callback trace queue processing actually produces: one
invocation (index+1, total) per entry below the retry ceiling, none for
skipped entries. -/
def expectedProgress (maxRetries total : Nat) : List SyncQueueItem → Nat → List (Nat × Nat)
  | [], _ => []
  | item :: rest, i =>
      if maxRetries ≤ item.retryCount then expectedProgress maxRetries total rest (i + 1)
      else (i + 1, total) :: expectedProgress maxRetries total rest (i + 1)

theorem processSyncQueueGo_progress (env : SyncEnv) (accessToken owner repo : String)
    (maxRetries total : Nat) :
    ∀ (snap : List SyncQueueItem) (i : Nat) (state : List SyncQueueItem),
      (processSyncQueueGo env accessToken owner repo maxRetries total snap i
        state).progress = expectedProgress maxRetries total snap i := by
  intro snap
  induction snap with
  | nil => intro i state; simp [processSyncQueueGo, expectedProgress]
  | cons a rest ih =>
      intro i state
      by_cases ha : maxRetries ≤ a.retryCount
      · simp only [processSyncQueueGo, expectedProgress, if_pos ha, skipOutcome]
        exact ih (i + 1) state
      · simp only [processSyncQueueGo, expectedProgress, if_neg ha]
        rw [stepOutcome_progress]
        rw [ih (i + 1) ((processQueueItem env accessToken owner repo state a).2)]

/-- C8 (amended): the progress callback fires exactly once per processed
entry, with arguments (index+1, total count of the snapshot), regardless of
whether the attempt succeeded; entries skipped at the retry ceiling do not
trigger the callback, because the loop continues before reaching it. -/
theorem processSyncQueue_progress (env : SyncEnv) (accessToken owner repo : String)
    (state : List SyncQueueItem) (maxRetries : Nat) :
    (processSyncQueue env accessToken owner repo state maxRetries).progress =
      expectedProgress maxRetries state.length state 0 :=
  processSyncQueueGo_progress env accessToken owner repo maxRetries state.length state 0
    state

/-- C8 counterexample: a single queued entry at the retry ceiling is skipped
and counted failed, and the progress callback never fires, whereas the claim
requires an invocation (1, 1) for every entry including skipped ones. -/
theorem processSyncQueue_progress_cx :
    (processSyncQueue envWitness ("t") ("o") ("r") [ceilItem] 3).progress = [] ∧
    (processSyncQueue envWitness ("t") ("o") ("r") [ceilItem] 3).failed = 1 ∧
    (processSyncQueue envWitness ("t") ("o") ("r") [ceilItem] 3).finalState = [ceilItem] := by
  refine ⟨?_, ?_, ?_⟩ <;> decide

end NotrailNote
